import Mathlib

/-!
# Verification of the word-counting worker pool (`counter.go`)

Shallow embedding of the Go program: the streaming substring matcher
`StreamEntranceCount`, the one-pass matcher `EntranceCount`, the lazy
worker pool (`NewController`, `HiringManager`, `Worker`, `Analyst`) and
the `fmt.Println`-formatted process output.  Bytes are modelled as `Nat`,
byte strings as `List Nat`, channels as lists of the values they carry.
-/

/-! ## Byte-string primitives (Go `bytes` / `strings` package functions) -/

/-- Byte-wise test that `pattern` occurs at the very front of `text`
(the comparison `bytes.Index` performs at one candidate position). -/
def matchesFront : List Nat → List Nat → Bool
  | [], _ => true
  | _ :: _, [] => false
  | p :: ps, b :: bs => p == b && matchesFront ps bs

/-- One iteration bound of the `bytes.Count` scanning loop.  Go's
`bytes.Count`/`strings.Count` repeatedly finds the next instance of the
pattern and skips past all of it, so instances are counted
*non-overlapping*, greedily from the left.  Every iteration consumes at
least one byte of the text, so `text.length` bounds the number of
iterations; the `fuel` argument carries that bound structurally. -/
def bytesCountLoop (pattern : List Nat) : Nat → List Nat → Nat
  | 0, _ => 0
  | _ + 1, [] => 0
  | fuel + 1, b :: rest =>
    if matchesFront pattern (b :: rest) then
      1 + bytesCountLoop pattern fuel ((b :: rest).drop pattern.length)
    else
      bytesCountLoop pattern fuel rest

/-- Go `bytes.Count` (= `strings.Count`) for a non-empty pattern: the
number of non-overlapping instances of `pattern` in `text`.  (Go
special-cases the empty pattern to `1 + rune count`; every claim speaks
about a non-empty target word, so that case is never used here.) -/
def bytesCount (pattern text : List Nat) : Nat :=
  bytesCountLoop pattern text.length text

/-- Specification-level notion of occurrence count: the number of
*positions* of `text` at which `pattern` occurs, overlapping occurrences
each counted.  This is the reading of "occurrence" in the spec sentences
about the matcher; it is compared against the code's `bytesCount`. -/
def occCount (pattern : List Nat) : List Nat → Nat
  | [] => 0
  | t@(_ :: rest) => (if matchesFront pattern t then 1 else 0) + occCount pattern rest

/-- Go `strings.isSeparator` restricted to single bytes: ASCII
alphanumerics and underscore are not separators, every other ASCII byte
is; a lone non-ASCII byte decodes as `RuneError`, which `isSeparator`
classifies as not a separator. -/
def isSeparator (b : Nat) : Bool :=
  if b ≤ 127 then
    if (48 ≤ b && b ≤ 57) || (97 ≤ b && b ≤ 122) || (65 ≤ b && b ≤ 90) || b == 95 then
      false
    else
      true
  else
    false

/-- `unicode.ToTitle` on an ASCII byte: lower-case letters are upcased,
everything else is unchanged. -/
def toTitleByte (b : Nat) : Nat :=
  if 97 ≤ b && b ≤ 122 then b - 32 else b

/-- The byte-wise mapping loop of Go `strings.Title`: a byte is
title-cased exactly when the previous byte (`prev`) is a separator. -/
def stringsTitleFrom (prev : Nat) : List Nat → List Nat
  | [] => []
  | b :: rest => (if isSeparator prev then toTitleByte b else b) :: stringsTitleFrom b rest

/-- Go `strings.Title` on an ASCII byte string: `prev` starts as a space,
so the first letter of each separator-delimited word is upcased. -/
def stringsTitle (s : List Nat) : List Nat :=
  stringsTitleFrom 32 s

/-! ## The one-pass matcher `EntranceCount` -/

/-- `EntranceCount` (src/counter.go): reads the whole source into memory
and returns `strings.Count(content, word) + strings.Count(content,
strings.Title(word))`.  The `io.Copy` error path returns `(0, err)` and
is not exercised by any claim, so the embedding is the success path. -/
def entranceCount (word content : List Nat) : Nat :=
  bytesCount word content + bytesCount (stringsTitle word) content

/-! ## The streaming matcher `StreamEntranceCount` -/

/-- The terminating `Read` call of a byte stream: either `io.EOF`
(possibly alongside finally delivered bytes) or a non-EOF read error
(likewise possibly alongside bytes). -/
inductive FinalRead where
  | eof (final : List Nat)
  | readErr (final : List Nat)
deriving DecidableEq, Repr

/-- The bytes delivered by the terminating `Read` call. -/
def FinalRead.data : FinalRead → List Nat
  | FinalRead.eof d => d
  | FinalRead.readErr d => d

/-- Whether the terminating `Read` call failed with a non-EOF error. -/
def FinalRead.isFail : FinalRead → Bool
  | FinalRead.eof _ => false
  | FinalRead.readErr _ => true

/-- The `(amount, err)` pair returned by `StreamEntranceCount`:
the accumulated count and whether a non-EOF read error was reported. -/
structure StreamResult where
  amount : Nat
  hasErr : Bool
deriving DecidableEq, Repr

/-- The two `bytes.Count` calls performed on one window
`buf[:len(desiredBytes)-1+n]` of the streaming loop. -/
def countWindow (word title window : List Nat) : Nat :=
  bytesCount word window + bytesCount title window

/-- The `for` loop of `StreamEntranceCount`.  `carry` is the first
`len(word) - 1` bytes of `buf` (the tail copied over from the previous
iteration); each successful `Read` appends a chunk `c` after it, the
window `carry ++ c` is counted when `n > 0`, and
`copy(buf[:w-1], buf[n:])` makes the next carry `(carry ++ c).drop
c.length`.  The terminating read is counted the same way and decides the
returned error. -/
def streamLoop (word title : List Nat) :
    List Nat → List (List Nat) → FinalRead → StreamResult
  | carry, [], fin =>
    { amount :=
        if 0 < (FinalRead.data fin).length then
          countWindow word title (carry ++ FinalRead.data fin)
        else 0,
      hasErr := FinalRead.isFail fin }
  | carry, c :: cs, fin =>
    let here := if 0 < c.length then countWindow word title (carry ++ c) else 0
    let rest := streamLoop word title ((carry ++ c).drop c.length) cs fin
    { amount := here + rest.amount, hasErr := rest.hasErr }

/-- `StreamEntranceCount` (src/counter.go): the buffer is allocated by
`make` and hence zero-initialised, so the first window is preceded by
`len(word) - 1` zero bytes; the title-case pattern is
`strings.Title(word)`.  `chunks` are the byte slices delivered by the
successive successful `Read` calls and `fin` is the terminating read. -/
def streamEntranceCount (word : List Nat) (chunks : List (List Nat)) (fin : FinalRead) :
    StreamResult :=
  streamLoop word (stringsTitle word) (List.replicate (word.length - 1) 0) chunks fin

/-- The sum of the per-window `bytes.Count` values of one single
pattern over the streaming loop's windows: the contribution one of the
two `amount += bytes.Count(...)` lines makes to the accumulated amount.
When the title-case variant coincides with the word, the loop adds
exactly this quantity twice. -/
def streamSingleCount (p : List Nat) : List Nat → List (List Nat) → FinalRead → Nat
  | carry, [], fin =>
    if 0 < (FinalRead.data fin).length then
      bytesCount p (carry ++ FinalRead.data fin)
    else 0
  | carry, c :: cs, fin =>
    (if 0 < c.length then bytesCount p (carry ++ c) else 0)
      + streamSingleCount p ((carry ++ c).drop c.length) cs fin

/-- Absence of a non-trivial border: no non-empty proper suffix of the
pattern is also one of its prefixes.  Occurrences of such a pattern can
never overlap, which is what makes the greedy non-overlapping
`bytes.Count` agree with the occurrence count. -/
def bifixFree (p : List Nat) : Prop :=
  ∀ k, k < p.length → 0 < k → p.take k ≠ p.drop (p.length - k)

instance (p : List Nat) : Decidable (bifixFree p) := by
  unfold bifixFree
  infer_instance

/-! ## The lazy worker pool: scheduler state -/

/-- The scheduler-owned state: the remaining growth slots
(`availableNumberOfWorker` in the `controller` struct) together with the
observable the claims speak about, the total number of `Worker`
goroutines ever started. -/
structure PoolState where
  availableNumberOfWorker : Nat
  spawned : Nat
deriving DecidableEq, Repr

/-- The body of `HiringManager`'s loop for one received `getDownToWork`
signal: if a growth slot remains, consume it and start one `Worker`
(`pc.workerWG.Add(1); go pc.Worker()`); otherwise the signal is drained
with no effect. -/
def hiringStep (s : PoolState) : PoolState :=
  if 0 < s.availableNumberOfWorker then
    { availableNumberOfWorker := s.availableNumberOfWorker - 1, spawned := s.spawned + 1 }
  else
    s

/-- `HiringManager` draining a finite sequence of work signals in order. -/
def hiringManagerRun (s : PoolState) (signals : List Unit) : PoolState :=
  signals.foldl (fun t _ => hiringStep t) s

/-! ## The pool controller -/

/-- The `http.Client` configuration the pool fetches with; Go's
`Timeout` field in nanoseconds, `0` meaning no timeout at all (the zero
value of `http.DefaultClient`). -/
structure GoHttpClient where
  timeoutNanos : Nat
deriving DecidableEq, Repr

/-- The streaming-variant `controller` struct as configured by
`NewController`: channel capacities, growth slots and the fetch client.
The `searchStrategy` field is `StreamEntranceCount`, embedded above. -/
structure Controller where
  getDownToWorkCap : Nat
  availableNumberOfWorker : Nat
  statisticsCap : Nat
  httpClient : GoHttpClient
  neededWord : String
deriving DecidableEq, Repr

/-- The legacy-variant `controller` struct (first file of the
repository): no statistics channel, `getDownToWork` capacity
`maxNumberOfWorker*2`, and the fetch client is `*http.DefaultClient`,
whose `Timeout` zero value imposes no bound. -/
structure ControllerLegacy where
  getDownToWorkCap : Nat
  availableNumberOfWorker : Nat
  httpClient : GoHttpClient
  neededWord : String
deriving DecidableEq, Repr

/-- `NewController` (streaming variant, src/counter.go lines 228-244):
rejects `maxNumberOfWorker < 1` with an error, otherwise builds the
controller with `maxNumberOfWorker - 1` growth slots, channel capacities
`maxNumberOfWorker + 1` and a 10-second (`10 * time.Second` nanoseconds)
HTTP client timeout. -/
def newController (maxNumberOfWorker : Nat) (neededWord : String) :
    Except String Controller :=
  if maxNumberOfWorker < 1 then
    Except.error "NewController: MaxNumberOfWorker < 0"
  else
    Except.ok
      { getDownToWorkCap := maxNumberOfWorker + 1
        availableNumberOfWorker := maxNumberOfWorker - 1
        statisticsCap := maxNumberOfWorker + 1
        httpClient := { timeoutNanos := 10 * 1000000000 }
        neededWord := neededWord }

/-- `NewController` (legacy variant, first file): same cap check, but
`getDownToWork` capacity `maxNumberOfWorker*2` and `*http.DefaultClient`
as the fetch client, i.e. a zero `Timeout`. -/
def newControllerLegacy (maxNumberOfWorker : Nat) (neededWord : String) :
    Except String ControllerLegacy :=
  if maxNumberOfWorker < 1 then
    Except.error "NewController: MaxNumberOfWorker < 0"
  else
    Except.ok
      { getDownToWorkCap := maxNumberOfWorker * 2
        availableNumberOfWorker := maxNumberOfWorker - 1
        httpClient := { timeoutNanos := 0 }
        neededWord := neededWord }

/-- What `main` does after flag parsing: either `log.Fatal` on a
controller-construction error (the pool is never started), or run
`UploadAndProcess` on the built controller. -/
inductive MainOutcome where
  | fatal (msg : String)
  | ranPool (c : Controller)
deriving DecidableEq, Repr

/-- `main` (streaming variant): builds the controller and either dies
fatally or runs the pool. -/
def goMain (levelOfParallelism : Nat) (neededWord : String) : MainOutcome :=
  match newController levelOfParallelism neededWord with
  | Except.error e => MainOutcome.fatal e
  | Except.ok c => MainOutcome.ranPool c

/-! ## Worker and Analyst -/

/-- Outcome of the fetch capability on one task: `httpClient.Get`
fails, or succeeds with a response body delivered as a byte stream
(chunks plus terminating read). -/
inductive FetchOutcome where
  | fetchFailed
  | fetched (chunks : List (List Nat)) (fin : FinalRead)

/-- One iteration of the `Worker` loop on task `url`: on fetch failure
no statistics record is sent; on fetch success the body is scanned by
`searchStrategy = StreamEntranceCount`, and a record carrying the
returned amount is sent exactly when the matcher reported no error. -/
def workerTaskRecord (word : List Nat) (fetch : String → FetchOutcome) (url : String) :
    Option Nat :=
  match fetch url with
  | FetchOutcome.fetchFailed => none
  | FetchOutcome.fetched chunks fin =>
    let r := streamEntranceCount word chunks fin
    if r.hasErr then none else some r.amount

/-- The statistics records a `Worker` emits while draining a task list,
in order. -/
def workerRecords (word : List Nat) (fetch : String → FetchOutcome) (tasks : List String) :
    List Nat :=
  tasks.filterMap (workerTaskRecord word fetch)

/-- `Analyst` (src/counter.go lines 276-284): drains the statistics
channel, keeping a running `count += stat.totalCount`, and reports the
final sum once the channel closes. -/
def analyst (records : List Nat) : Nat :=
  records.foldl (fun acc r => acc + r) 0

/-! ## Process output (`fmt.Println` formatting) -/

/-- How `fmt.Println` joins its operands: every two adjacent operands
are separated by exactly one space. -/
def goPrintlnArgs : List String → String
  | [] => ""
  | [a] => a
  | a :: rest => a ++ " " ++ goPrintlnArgs rest

/-- `fmt.Println`: space-separated operands followed by a newline. -/
def goPrintln (args : List String) : String :=
  goPrintlnArgs args ++ "\n"

/-- The per-task success line printed by `Worker`:
`fmt.Println("Count for ", URL, ": ", amount)`. -/
def workerCountLine (url : String) (amount : Nat) : String :=
  goPrintln ["Count for ", url, ": ", toString amount]

/-- The single summary line printed by `Analyst` at shutdown:
`fmt.Println("Total: ", count)`. -/
def analystTotalLine (total : Nat) : String :=
  goPrintln ["Total: ", toString total]

/-- Everything `Analyst` writes to standard output over a whole run:
exactly one summary line, carrying the accumulated sum. -/
def analystOutput (records : List Nat) : String :=
  analystTotalLine (analyst records)

/-! ## Bridge lemmas: front matching -/

/-- `matchesFront p t` holds exactly when `t` extends `p`. -/
theorem matchesFront_iff_append (p t : List Nat) :
    matchesFront p t = true ↔ ∃ s, t = p ++ s := by
  induction p generalizing t with
  | nil => simp [matchesFront]
  | cons a ps ih =>
    cases t with
    | nil => simp [matchesFront]
    | cons b bs =>
      simp only [matchesFront, Bool.and_eq_true, beq_iff_eq, ih, List.cons_append,
        List.cons.injEq]
      constructor
      · rintro ⟨rfl, s, rfl⟩
        exact ⟨s, rfl, rfl⟩
      · rintro ⟨s, rfl, rfl⟩
        exact ⟨rfl, s, rfl⟩

/-- A successful front match needs at least `p.length` bytes of text. -/
theorem matchesFront_length_le (p t : List Nat) (h : matchesFront p t = true) :
    p.length ≤ t.length := by
  obtain ⟨s, rfl⟩ := (matchesFront_iff_append p t).mp h
  simp

/-- A text shorter than the pattern never matches at the front. -/
theorem matchesFront_false_of_short (p t : List Nat) (h : t.length < p.length) :
    matchesFront p t = false := by
  cases hm : matchesFront p t with
  | false => rfl
  | true => exact absurd (matchesFront_length_le p t hm) (by omega)

/-- Appending more text after at least `p.length` bytes cannot change a
front match. -/
theorem matchesFront_append_left (p u v : List Nat) (h : p.length ≤ u.length) :
    matchesFront p (u ++ v) = matchesFront p u := by
  induction p generalizing u with
  | nil => simp [matchesFront]
  | cons a ps ih =>
    cases u with
    | nil => simp at h
    | cons b bs =>
      simp only [List.cons_append, matchesFront, List.append_eq]
      rw [ih bs (by simpa using h)]

/-! ## Bridge lemmas: occurrence counting -/

/-- Unfolding `occCount` on the empty text. -/
@[simp] theorem occCount_nil (p : List Nat) : occCount p [] = 0 := rfl

/-- Unfolding `occCount` on a non-empty text. -/
theorem occCount_cons (p : List Nat) (b : Nat) (rest : List Nat) :
    occCount p (b :: rest) =
      (if matchesFront p (b :: rest) then 1 else 0) + occCount p rest := rfl

/-- No occurrence fits into a text shorter than the pattern. -/
theorem occCount_eq_zero_of_short (p t : List Nat) (h : t.length < p.length) :
    occCount p t = 0 := by
  induction t with
  | nil => rfl
  | cons b rest ih =>
    rw [occCount_cons, matchesFront_false_of_short p (b :: rest) h]
    simpa using ih (by simp at h ⊢; omega)

/-- Dropping a front segment can only lose occurrences. -/
theorem occCount_drop_le (p t : List Nat) (k : Nat) :
    occCount p (t.drop k) ≤ occCount p t := by
  induction t generalizing k with
  | nil => simp
  | cons b rest ih =>
    cases k with
    | zero => simp
    | succ k =>
      calc occCount p ((b :: rest).drop (k + 1)) = occCount p (rest.drop k) := by
            rw [List.drop_succ_cons]
        _ ≤ occCount p rest := ih k
        _ ≤ occCount p (b :: rest) := by rw [occCount_cons]; omega

/-- A run of zero bytes in front of the text adds no occurrence of a
pattern whose first byte is not zero. -/
theorem occCount_replicate_zero_append (p t : List Nat) (hp : p ≠ [])
    (h0 : p.head? ≠ some 0) (k : Nat) :
    occCount p (List.replicate k 0 ++ t) = occCount p t := by
  induction k with
  | zero => simp
  | succ k ih =>
    rw [List.replicate_succ, List.cons_append, occCount_cons]
    have hm : matchesFront p (0 :: (List.replicate k 0 ++ t)) = false := by
      cases p with
      | nil => exact absurd rfl hp
      | cons q qs =>
        have hq : q ≠ 0 := by simpa using h0
        simp [matchesFront, hq]
    rw [hm]
    simpa using ih

/-- The splitting law behind the overlap buffer: occurrences of `p` in
`u ++ rest` are the occurrences inside `u` plus the occurrences of the
text formed by the last `p.length - 1` bytes of `u` followed by `rest`. -/
theorem occCount_append_split (p : List Nat) (hp : p ≠ []) (u rest : List Nat) :
    occCount p (u ++ rest) =
      occCount p u + occCount p (u.drop (u.length - (p.length - 1)) ++ rest) := by
  have hw : 0 < p.length := List.length_pos.mpr hp
  induction u with
  | nil => simp
  | cons x u2 ih =>
    by_cases hlen : (x :: u2).length ≤ p.length - 1
    · have hdrop : (x :: u2).length - (p.length - 1) = 0 := by omega
      rw [hdrop, List.drop_zero, occCount_eq_zero_of_short p (x :: u2) (by omega)]
      simp
    · push_neg at hlen
      have hple : p.length ≤ (x :: u2).length := by omega
      have hu2 : p.length - 1 ≤ u2.length := by simp at hlen ⊢; omega
      have hm : matchesFront p ((x :: u2) ++ rest) = matchesFront p (x :: u2) :=
        matchesFront_append_left p (x :: u2) rest hple
      have hidx : (x :: u2).length - (p.length - 1) = (u2.length - (p.length - 1)) + 1 := by
        simp; omega
      rw [List.cons_append, occCount_cons, occCount_cons, hidx, List.drop_succ_cons]
      rw [show x :: (u2 ++ rest) = (x :: u2) ++ rest from rfl, hm, ih]
      omega

/-! ## Bridge lemmas: border-freeness and greedy counting -/

/-- For a border-free pattern, a front match excludes any further match
starting strictly inside it. -/
theorem matchesFront_drop_false_of_bifixFree (p t : List Nat) (hbf : bifixFree p)
    (h : matchesFront p t = true) (j : Nat) (hj0 : 0 < j) (hjw : j < p.length) :
    matchesFront p (t.drop j) = false := by
  cases hm : matchesFront p (t.drop j) with
  | false => rfl
  | true =>
    exfalso
    obtain ⟨s, rfl⟩ := (matchesFront_iff_append p t).mp h
    obtain ⟨s2, hs2⟩ := (matchesFront_iff_append p _).mp hm
    rw [List.drop_append_eq_append_drop] at hs2
    have hj2 : j - p.length = 0 := by omega
    rw [hj2, List.drop_zero] at hs2
    have hlen1 : (p.drop j).length = p.length - j := by simp
    have e1 : (p.drop j ++ s).take (p.length - j) = p.drop j := by
      rw [List.take_append_eq_append_take, hlen1, Nat.sub_self,
        List.take_of_length_le (le_of_eq hlen1)]
      simp
    have e2 : (p ++ s2).take (p.length - j) = p.take (p.length - j) := by
      rw [List.take_append_eq_append_take,
        Nat.sub_eq_zero_of_le (by omega : p.length - j ≤ p.length)]
      simp
    have hb : p.take (p.length - j) = p.drop j := by
      rw [← e1, ← e2, hs2]
    apply hbf (p.length - j) (by omega) (by omega)
    rw [show p.length - (p.length - j) = j by omega]
    exact hb

/-- For a border-free pattern, a front match contributes exactly one
occurrence and the next candidate position is past the whole match. -/
theorem occCount_of_head_match (p t : List Nat) (hp : p ≠ []) (hbf : bifixFree p)
    (h : matchesFront p t = true) :
    occCount p t = 1 + occCount p (t.drop p.length) := by
  have hw : 0 < p.length := List.length_pos.mpr hp
  have hstep : ∀ d, d + 1 ≤ p.length → occCount p (t.drop 1) = occCount p (t.drop (1 + d)) := by
    intro d
    induction d with
    | zero => simp
    | succ d ih =>
      intro hd
      rw [ih (by omega)]
      have hm : matchesFront p (t.drop (1 + d)) = false :=
        matchesFront_drop_false_of_bifixFree p t hbf h (1 + d) (by omega) (by omega)
      have hdd : t.drop (1 + (d + 1)) = (t.drop (1 + d)).drop 1 := by
        rw [List.drop_drop]
        ring_nf
      cases hdt : t.drop (1 + d) with
      | nil => rw [hdd, hdt]; simp
      | cons b2 r2 =>
        rw [hdt] at hm
        rw [hdd, hdt, occCount_cons, hm]
        simp
  cases t with
  | nil =>
    cases p with
    | nil => exact absurd rfl hp
    | cons a ps => simp [matchesFront] at h
  | cons b rest =>
    rw [occCount_cons, if_pos h]
    have h2 := hstep (p.length - 1) (by omega)
    rw [show 1 + (p.length - 1) = p.length by omega] at h2
    rw [show (b :: rest).drop 1 = rest from rfl] at h2
    rw [h2]

/-- The greedy scan never counts more than the number of occurrences. -/
theorem bytesCountLoop_le_occCount (p : List Nat) (hp : p ≠ []) :
    ∀ fuel t, bytesCountLoop p fuel t ≤ occCount p t := by
  have hw : 0 < p.length := List.length_pos.mpr hp
  intro fuel
  induction fuel with
  | zero => intro t; simp [bytesCountLoop]
  | succ fuel ih =>
    intro t
    cases t with
    | nil => simp [bytesCountLoop]
    | cons b rest =>
      simp only [bytesCountLoop]
      by_cases hm : matchesFront p (b :: rest) = true
      · rw [if_pos hm]
        have hdrop : (b :: rest).drop p.length = rest.drop (p.length - 1) := by
          obtain ⟨m, hm2⟩ : ∃ m, p.length = m + 1 := ⟨p.length - 1, by omega⟩
          rw [hm2]
          simp [List.drop_succ_cons]
        have hocc : occCount p (b :: rest) = 1 + occCount p rest := by
          rw [occCount_cons, if_pos hm]
        rw [hocc, hdrop]
        have hle := le_trans (ih (rest.drop (p.length - 1)))
          (occCount_drop_le p rest (p.length - 1))
        omega
      · rw [if_neg hm]
        calc bytesCountLoop p fuel rest ≤ occCount p rest := ih rest
          _ ≤ occCount p (b :: rest) := by rw [occCount_cons]; omega

/-- For a border-free pattern the greedy non-overlapping scan finds
every occurrence, provided the fuel covers the text. -/
theorem bytesCountLoop_eq_occCount (p : List Nat) (hp : p ≠ []) (hbf : bifixFree p) :
    ∀ fuel t, t.length ≤ fuel → bytesCountLoop p fuel t = occCount p t := by
  have hw : 0 < p.length := List.length_pos.mpr hp
  intro fuel
  induction fuel with
  | zero =>
    intro t ht
    have hnil : t = [] := List.length_eq_zero.mp (by omega)
    subst hnil
    simp [bytesCountLoop]
  | succ fuel ih =>
    intro t ht
    cases t with
    | nil => simp [bytesCountLoop]
    | cons b rest =>
      simp only [bytesCountLoop]
      by_cases hm : matchesFront p (b :: rest) = true
      · rw [if_pos hm, occCount_of_head_match p (b :: rest) hp hbf hm]
        have hlen2 : ((b :: rest).drop p.length).length ≤ fuel := by
          rw [List.length_drop]
          simp only [List.length_cons] at ht ⊢
          omega
        rw [ih ((b :: rest).drop p.length) hlen2]
      · rw [if_neg hm, occCount_cons, if_neg hm]
        rw [ih rest (by simp only [List.length_cons] at ht; omega)]
        omega

/-- `bytes.Count` equals the occurrence count for border-free patterns. -/
theorem bytesCount_eq_occCount (p t : List Nat) (hp : p ≠ []) (hbf : bifixFree p) :
    bytesCount p t = occCount p t :=
  bytesCountLoop_eq_occCount p hp hbf t.length t le_rfl

/-- `bytes.Count` never exceeds the occurrence count. -/
theorem bytesCount_le_occCount (p t : List Nat) (hp : p ≠ []) :
    bytesCount p t ≤ occCount p t :=
  bytesCountLoop_le_occCount p hp t.length t

/-- `bytes.Count` of a pattern in a shorter text is zero. -/
theorem bytesCount_eq_zero_of_short (p t : List Nat) (hp : p ≠ []) (h : t.length < p.length) :
    bytesCount p t = 0 :=
  Nat.le_zero.mp (le_trans (bytesCount_le_occCount p t hp)
    (le_of_eq (occCount_eq_zero_of_short p t h)))

/-! ## Bridge lemmas: `strings.Title` -/

/-- Title-casing is byte-per-byte, so it preserves the length. -/
theorem stringsTitleFrom_length (prev : Nat) (s : List Nat) :
    (stringsTitleFrom prev s).length = s.length := by
  induction s generalizing prev with
  | nil => rfl
  | cons b rest ih => simp [stringsTitleFrom, ih]

/-- `strings.Title` preserves the length of an ASCII word. -/
theorem stringsTitle_length (s : List Nat) : (stringsTitle s).length = s.length :=
  stringsTitleFrom_length 32 s

/-- The title variant of a non-empty word is non-empty. -/
theorem stringsTitle_ne_nil (word : List Nat) (hp : word ≠ []) : stringsTitle word ≠ [] := by
  intro hc
  have hl := stringsTitle_length word
  rw [hc] at hl
  exact hp (List.length_eq_zero.mp hl.symm)

/-- ASCII title-casing never maps a non-zero byte to zero. -/
theorem toTitleByte_ne_zero (b : Nat) (hb : b ≠ 0) : toTitleByte b ≠ 0 := by
  unfold toTitleByte
  split
  · rename_i h
    simp only [Bool.and_eq_true, decide_eq_true_eq] at h
    omega
  · exact hb

/-- The first byte of the word is title-cased (a space precedes it). -/
theorem stringsTitle_cons (b : Nat) (s : List Nat) :
    stringsTitle (b :: s) = toTitleByte b :: stringsTitleFrom b s := by
  have hsep : isSeparator 32 = true := rfl
  simp [stringsTitle, stringsTitleFrom, hsep]

/-- If the word does not start with a zero byte, neither does its title
variant. -/
theorem stringsTitle_head_ne_zero (word : List Nat) (h0 : word.head? ≠ some 0) :
    (stringsTitle word).head? ≠ some 0 := by
  cases word with
  | nil => simp [stringsTitle, stringsTitleFrom]
  | cons b rest =>
    rw [stringsTitle_cons]
    have hb : b ≠ 0 := by simpa using h0
    simpa using toTitleByte_ne_zero b hb

/-! ## Bridge lemmas: the streaming loop -/

/-- The returned error flag is decided by the terminating read alone. -/
theorem streamLoop_hasErr (word title : List Nat) :
    ∀ chunks carry fin,
      (streamLoop word title carry chunks fin).hasErr = FinalRead.isFail fin := by
  intro chunks
  induction chunks with
  | nil => intro carry fin; rfl
  | cons c cs ih =>
    intro carry fin
    simp only [streamLoop]
    exact ih ((carry ++ c).drop c.length) fin

/-- The accumulated amount does not depend on whether the terminating
read ended with EOF or with a genuine error. -/
theorem streamLoop_amount_fin (word title : List Nat) :
    ∀ chunks carry d,
      (streamLoop word title carry chunks (FinalRead.readErr d)).amount
        = (streamLoop word title carry chunks (FinalRead.eof d)).amount := by
  intro chunks
  induction chunks with
  | nil => intro carry d; rfl
  | cons c cs ih =>
    intro carry d
    simp only [streamLoop]
    rw [ih ((carry ++ c).drop c.length) d]

/-- The heart of the refinement: with border-free patterns of equal
length and a carry of length `p.length - 1`, the streaming loop counts
exactly the occurrences of each pattern in the carry followed by the
remaining stream content. -/
theorem streamLoop_eq_occCount (p q : List Nat) (hp : p ≠ []) (hq : q ≠ [])
    (hbp : bifixFree p) (hbq : bifixFree q) (hlen : q.length = p.length) :
    ∀ chunks carry, carry.length = p.length - 1 →
      streamLoop p q carry chunks (FinalRead.eof []) =
        { amount := occCount p (carry ++ chunks.flatten)
            + occCount q (carry ++ chunks.flatten),
          hasErr := false } := by
  have hw : 0 < p.length := List.length_pos.mpr hp
  intro chunks
  induction chunks with
  | nil =>
    intro carry hc
    simp only [streamLoop, FinalRead.data, FinalRead.isFail, List.flatten_nil,
      List.append_nil, List.length_nil]
    rw [occCount_eq_zero_of_short p carry (by omega),
      occCount_eq_zero_of_short q carry (by omega)]
    simp
  | cons c cs ih =>
    intro carry hc
    simp only [streamLoop]
    have hclen : ((carry ++ c).drop c.length).length = p.length - 1 := by
      simp only [List.length_drop, List.length_append]
      omega
    rw [ih ((carry ++ c).drop c.length) hclen]
    have hcount : (if 0 < c.length then countWindow p q (carry ++ c) else 0)
        = occCount p (carry ++ c) + occCount q (carry ++ c) := by
      by_cases hcl : 0 < c.length
      · rw [if_pos hcl]
        unfold countWindow
        rw [bytesCount_eq_occCount p _ hp hbp, bytesCount_eq_occCount q _ hq hbq]
      · rw [if_neg hcl]
        have hc0 : c = [] := by
          cases c with
          | nil => rfl
          | cons x xs => simp at hcl
        subst hc0
        rw [List.append_nil,
          occCount_eq_zero_of_short p carry (by omega),
          occCount_eq_zero_of_short q carry (by omega)]
    rw [hcount]
    have hidxp : (carry ++ c).length - (p.length - 1) = c.length := by
      simp only [List.length_append]
      omega
    have hidxq : (carry ++ c).length - (q.length - 1) = c.length := by
      simp only [List.length_append, hlen]
      omega
    have hsplitp := occCount_append_split p hp (carry ++ c) cs.flatten
    have hsplitq := occCount_append_split q hq (carry ++ c) cs.flatten
    rw [hidxp] at hsplitp
    rw [hidxq] at hsplitq
    have hflat : carry ++ (c :: cs).flatten = (carry ++ c) ++ cs.flatten := by
      rw [List.flatten_cons, ← List.append_assoc]
    rw [hflat, hsplitp, hsplitq]
    dsimp only
    congr 1
    omega

/-- `StreamEntranceCount` with border-free patterns returns the number
of occurrences of the word plus the number of occurrences of its
title-case variant in the whole streamed content, and no error — for
every chunk decomposition of the content. -/
theorem streamEntranceCount_eq_occCount (word : List Nat) (chunks : List (List Nat))
    (hp : word ≠ []) (hbw : bifixFree word) (hbt : bifixFree (stringsTitle word))
    (h0 : word.head? ≠ some 0) :
    streamEntranceCount word chunks (FinalRead.eof []) =
      { amount := occCount word chunks.flatten
          + occCount (stringsTitle word) chunks.flatten,
        hasErr := false } := by
  have hq := stringsTitle_ne_nil word hp
  have hlen := stringsTitle_length word
  have h0t := stringsTitle_head_ne_zero word h0
  unfold streamEntranceCount
  rw [streamLoop_eq_occCount word (stringsTitle word) hp hq hbw hbt hlen chunks _
    (by simp)]
  rw [occCount_replicate_zero_append word _ hp h0 _,
    occCount_replicate_zero_append (stringsTitle word) _ hq h0t _]

/-! ## Bridge lemmas: streams shorter than the overlap region -/

/-- When the total streamed content is shorter than `p.length - 1` and
neither pattern starts with a zero byte, no window ever contains a
match: every carry is a run of zeros followed by already-seen content
bytes, and the loop returns zero without error. -/
theorem streamLoop_short (p q : List Nat) (hp : p ≠ []) (hq : q ≠ [])
    (hph : p.head? ≠ some 0) (hqh : q.head? ≠ some 0) (hlen : q.length = p.length) :
    ∀ chunks k s, k + s.length = p.length - 1 →
      s.length + chunks.flatten.length < p.length - 1 →
      streamLoop p q (List.replicate k 0 ++ s) chunks (FinalRead.eof []) =
        { amount := 0, hasErr := false } := by
  have hw : 0 < p.length := List.length_pos.mpr hp
  intro chunks
  induction chunks with
  | nil =>
    intro k s hk hs
    simp only [streamLoop, FinalRead.data, FinalRead.isFail, List.length_nil]
    norm_num
  | cons c cs ih =>
    intro k s hk hs
    simp only [streamLoop]
    have hwin : (List.replicate k 0 ++ s) ++ c = List.replicate k 0 ++ (s ++ c) :=
      List.append_assoc _ _ _
    have hflats : (c :: cs).flatten.length = c.length + cs.flatten.length := by
      simp [List.flatten_cons]
    have hsc : (s ++ c).length < p.length := by
      simp only [List.length_append]
      omega
    have hoccp : occCount p ((List.replicate k 0 ++ s) ++ c) = 0 := by
      rw [hwin, occCount_replicate_zero_append p _ hp hph k]
      exact occCount_eq_zero_of_short p _ hsc
    have hoccq : occCount q ((List.replicate k 0 ++ s) ++ c) = 0 := by
      rw [hwin, occCount_replicate_zero_append q _ hq hqh k]
      exact occCount_eq_zero_of_short q _ (by rw [hlen]; exact hsc)
    have hcount : (if 0 < c.length then countWindow p q ((List.replicate k 0 ++ s) ++ c)
        else 0) = 0 := by
      by_cases hcl : 0 < c.length
      · rw [if_pos hcl]
        unfold countWindow
        have h1 := le_trans (bytesCount_le_occCount p _ hp) (le_of_eq hoccp)
        have h2 := le_trans (bytesCount_le_occCount q _ hq) (le_of_eq hoccq)
        omega
      · rw [if_neg hcl]
    rw [hcount]
    have hdropeq : ((List.replicate k 0 ++ s) ++ c).drop c.length
        = List.replicate (k - c.length) 0 ++ (s ++ c).drop (c.length - k) := by
      rw [hwin, List.drop_append_eq_append_drop, List.drop_replicate]
      simp
    have hs2len : ((s ++ c).drop (c.length - k)).length
        = (s.length + c.length) - (c.length - k) := by
      simp [List.length_drop, List.length_append]
    rw [hdropeq, ih (k - c.length) ((s ++ c).drop (c.length - k)) (by omega)
      (by rw [hs2len] at *; omega)]
    rfl

/-- `EntranceCount` of a content shorter than the word is zero. -/
theorem entranceCount_eq_zero_of_short (word content : List Nat) (hp : word ≠ [])
    (h : content.length < word.length) : entranceCount word content = 0 := by
  unfold entranceCount
  rw [bytesCount_eq_zero_of_short word content hp h,
    bytesCount_eq_zero_of_short (stringsTitle word) content (stringsTitle_ne_nil word hp)
      (by rw [stringsTitle_length]; exact h)]

/-! ## Bridge lemmas: the hiring loop -/

/-- Complete characterisation of the hiring loop: it hires exactly one
worker per signal while slots remain, so it consumes `min(#signals,
slots)` slots and spawns that many additional workers. -/
theorem hiringManagerRun_spec (signals : List Unit) :
    ∀ s : PoolState,
      hiringManagerRun s signals =
        { availableNumberOfWorker := s.availableNumberOfWorker - signals.length,
          spawned := s.spawned + min signals.length s.availableNumberOfWorker } := by
  induction signals with
  | nil => intro s; simp [hiringManagerRun]
  | cons u us ih =>
    intro s
    have h1 : hiringManagerRun s (u :: us) = hiringManagerRun (hiringStep s) us := rfl
    rw [h1, ih (hiringStep s)]
    unfold hiringStep
    by_cases h : 0 < s.availableNumberOfWorker
    · rw [if_pos h]
      simp only [List.length_cons]
      congr 1 <;> omega
    · rw [if_neg h]
      simp only [List.length_cons]
      congr 1 <;> omega

/-! ## Bridge lemmas: the Analyst accumulator -/

/-- The `count += stat.totalCount` loop from any starting accumulator. -/
theorem analyst_foldl_eq (records : List Nat) :
    ∀ acc : Nat, records.foldl (fun a r => a + r) acc = acc + records.sum := by
  induction records with
  | nil => intro acc; simp
  | cons r rs ih =>
    intro acc
    rw [List.foldl_cons, ih (acc + r), List.sum_cons]
    omega

/-- `Analyst`'s reported total is the sum of the received records. -/
theorem analyst_eq_sum (records : List Nat) : analyst records = records.sum := by
  unfold analyst
  rw [analyst_foldl_eq records 0]
  omega

/-! ## Bridge lemmas: `fmt.Println` shapes -/

/-- `fmt.Println` with four operands. -/
theorem goPrintln_four (a b c d : String) :
    goPrintln [a, b, c, d] = a ++ " " ++ b ++ " " ++ c ++ " " ++ d ++ "\n" := by
  show (a ++ " " ++ (b ++ " " ++ (c ++ " " ++ d))) ++ "\n"
      = a ++ " " ++ b ++ " " ++ c ++ " " ++ d ++ "\n"
  simp [String.append_assoc]

/-- `fmt.Println` with two operands. -/
theorem goPrintln_two (a b : String) :
    goPrintln [a, b] = a ++ " " ++ b ++ "\n" := by
  show (a ++ " " ++ b) ++ "\n" = a ++ " " ++ b ++ "\n"
  simp [String.append_assoc]

/-! ## Bridge lemmas: Worker records -/

/-- The count one task contributes to the aggregate: zero unless both
the fetch and the matcher succeed. -/
theorem workerTaskRecord_getD (word : List Nat) (fetch : String → FetchOutcome)
    (url : String) :
    (workerTaskRecord word fetch url).getD 0
      = match fetch url with
        | FetchOutcome.fetchFailed => 0
        | FetchOutcome.fetched chunks fin =>
          if (streamEntranceCount word chunks fin).hasErr then 0
          else (streamEntranceCount word chunks fin).amount := by
  unfold workerTaskRecord
  cases fetch url with
  | fetchFailed => rfl
  | fetched chunks fin =>
    by_cases he : (streamEntranceCount word chunks fin).hasErr
    · simp [he]
    · simp [he]

/-- Summing the emitted records is summing the per-task contributions. -/
theorem workerRecords_sum (word : List Nat) (fetch : String → FetchOutcome) :
    ∀ tasks : List String,
      (workerRecords word fetch tasks).sum
        = (tasks.map fun url => (workerTaskRecord word fetch url).getD 0).sum := by
  intro tasks
  induction tasks with
  | nil => rfl
  | cons url rest ih =>
    simp only [workerRecords, List.map_cons, List.sum_cons] at *
    cases hr : workerTaskRecord word fetch url with
    | none => simp [List.filterMap_cons, hr, ih]
    | some a => simp [List.filterMap_cons, hr, List.sum_cons, ih]

/-! ## Claim C1: chunk-size independence of the streaming matcher -/

/-- Claim C1 fails as stated: for the self-overlapping word "aa"
(bytes `[97, 97]`) and content "aaa", reading in chunks of at most 2
bytes makes the streaming matcher report 2 while the one-pass matcher
reports 1, because `bytes.Count` counts non-overlapping instances and
the greedy grouping restarts in every window.  All side conditions of
the claim (non-empty word, positive chunk size, chunks covering the
content) hold at this input. -/
theorem C1_counterexample :
    ([[97, 97], [97]] : List (List Nat)).flatten = [97, 97, 97]
    ∧ (∀ c ∈ ([[97, 97], [97]] : List (List Nat)), c.length ≤ 2)
    ∧ ([97, 97] : List Nat) ≠ []
    ∧ 0 < 2
    ∧ (streamEntranceCount [97, 97] [[97, 97], [97]] (FinalRead.eof [])).amount
        ≠ entranceCount [97, 97] [97, 97, 97] := by
  decide

/-- Claim C1 (amended): for every content, chunk decomposition and
positive chunk size, the streaming matcher agrees with the one-pass
matcher — provided the word and its title-case variant are border-free
(no non-empty proper prefix of either is also a suffix, so occurrences
cannot overlap) and the word does not start with a zero byte (so the
zero-initialised overlap buffer cannot fabricate a match). -/
theorem C1_theorem (word content : List Nat) (chunkSize : Nat) (chunks : List (List Nat))
    (hw : word ≠ []) (hcs : 0 < chunkSize) (hsz : ∀ c ∈ chunks, c.length ≤ chunkSize)
    (hjoin : chunks.flatten = content)
    (hbw : bifixFree word) (hbt : bifixFree (stringsTitle word))
    (h0 : word.head? ≠ some 0) :
    streamEntranceCount word chunks (FinalRead.eof [])
      = { amount := entranceCount word content, hasErr := false } := by
  subst hjoin
  rw [streamEntranceCount_eq_occCount word chunks hw hbw hbt h0]
  unfold entranceCount
  rw [bytesCount_eq_occCount word _ hw hbw,
    bytesCount_eq_occCount (stringsTitle word) _ (stringsTitle_ne_nil word hw) hbt]

/-- Claim C1 witness: the word "go" over the content "go go" read in
chunks of size 3. -/
theorem C1_theorem_witness :
    streamEntranceCount [103, 111] [[103, 111, 32], [103, 111]] (FinalRead.eof [])
      = { amount := entranceCount [103, 111] [103, 111, 32, 103, 111], hasErr := false } :=
  C1_theorem [103, 111] [103, 111, 32, 103, 111] 3 [[103, 111, 32], [103, 111]]
    (by decide) (by decide) (by decide) (by decide) (by decide) (by decide) (by decide)

/-! ## Claim C2: every occurrence counted exactly once -/

/-- Claim C2 fails as stated: the word "aa" occurs at two (overlapping)
positions of "aaa", yet the streaming matcher counts only 1 even when
the whole content arrives in a single chunk, because `bytes.Count`
counts non-overlapping instances. -/
theorem C2_counterexample :
    ([97, 97] : List Nat) ≠ []
    ∧ occCount [97, 97] [97, 97, 97] + occCount (stringsTitle [97, 97]) [97, 97, 97] = 2
    ∧ (streamEntranceCount [97, 97] [[97, 97, 97]] (FinalRead.eof [])).amount = 1
    ∧ (streamEntranceCount [97, 97] [[97, 97, 97]] (FinalRead.eof [])).amount
        ≠ occCount [97, 97] [97, 97, 97] + occCount (stringsTitle [97, 97]) [97, 97, 97] := by
  decide

/-- Claim C2 (amended): when the word and its title-case variant are
border-free (occurrences cannot overlap) and the word does not start
with a zero byte, the streaming matcher counts every occurrence of the
word and every occurrence of its title-case variant exactly once, for
every chunk decomposition — boundary-spanning occurrences included,
thanks to the overlap region of `wordLength - 1` bytes. -/
theorem C2_theorem (word content : List Nat) (chunkSize : Nat) (chunks : List (List Nat))
    (hw : word ≠ []) (hcs : 0 < chunkSize) (hsz : ∀ c ∈ chunks, c.length ≤ chunkSize)
    (hjoin : chunks.flatten = content)
    (hbw : bifixFree word) (hbt : bifixFree (stringsTitle word))
    (h0 : word.head? ≠ some 0) :
    (streamEntranceCount word chunks (FinalRead.eof [])).amount
      = occCount word content + occCount (stringsTitle word) content := by
  subst hjoin
  rw [streamEntranceCount_eq_occCount word chunks hw hbw hbt h0]

/-- Claim C2 witness: the word "go" split across a chunk boundary is
still found exactly once. -/
theorem C2_theorem_witness :
    (streamEntranceCount [103, 111] [[45, 45, 103], [111, 45, 45]] (FinalRead.eof [])).amount
      = occCount [103, 111] [45, 45, 103, 111, 45, 45]
        + occCount (stringsTitle [103, 111]) [45, 45, 103, 111, 45, 45] :=
  C2_theorem [103, 111] [45, 45, 103, 111, 45, 45] 3 [[45, 45, 103], [111, 45, 45]]
    (by decide) (by decide) (by decide) (by decide) (by decide) (by decide) (by decide)

/-! ## Claim C3: the pool never spawns more than the configured cap -/

/-- Claim C3: starting from the one initial Worker and the
`maxNumberOfWorker - 1` growth slots configured by `NewController`, the
hiring loop spawns exactly one additional Worker per signal while slots
remain — `min(#signals, cap - 1)` in total — and the total number of
Workers ever spawned never exceeds the cap. -/
theorem C3_theorem (k : Nat) (q : String) (c : Controller) (signals : List Unit)
    (hk : 1 ≤ k) (hc : newController k q = Except.ok c) :
    (hiringManagerRun
        { availableNumberOfWorker := c.availableNumberOfWorker, spawned := 1 }
        signals).spawned = 1 + min signals.length (k - 1)
    ∧ (hiringManagerRun
        { availableNumberOfWorker := c.availableNumberOfWorker, spawned := 1 }
        signals).spawned ≤ k := by
  have hc2 : c.availableNumberOfWorker = k - 1 := by
    unfold newController at hc
    rw [if_neg (by omega)] at hc
    simp only [Except.ok.injEq] at hc
    subst hc
    rfl
  rw [hiringManagerRun_spec signals _]
  dsimp only
  rw [hc2]
  constructor
  · rfl
  · omega

/-- Claim C3 witness: cap 2, three work signals — only one extra Worker
is hired and the total stays at the cap. -/
theorem C3_theorem_witness :
    (hiringManagerRun
        { availableNumberOfWorker :=
            (({ getDownToWorkCap := 3, availableNumberOfWorker := 1, statisticsCap := 3,
                httpClient := { timeoutNanos := 10 * 1000000000 },
                neededWord := "go" } : Controller)).availableNumberOfWorker,
          spawned := 1 }
        [(), (), ()]).spawned = 1 + min ([(), (), ()] : List Unit).length (2 - 1)
    ∧ (hiringManagerRun
        { availableNumberOfWorker :=
            (({ getDownToWorkCap := 3, availableNumberOfWorker := 1, statisticsCap := 3,
                httpClient := { timeoutNanos := 10 * 1000000000 },
                neededWord := "go" } : Controller)).availableNumberOfWorker,
          spawned := 1 }
        [(), (), ()]).spawned ≤ 2 :=
  C3_theorem 2 "go"
    { getDownToWorkCap := 3, availableNumberOfWorker := 1, statisticsCap := 3,
      httpClient := { timeoutNanos := 10 * 1000000000 }, neededWord := "go" }
    [(), (), ()] (by decide) rfl

/-! ## Claim C4: the Analyst total is the sum over successful tasks -/

/-- Claim C4: the total reported by the Analyst equals the sum of the
per-task counts of exactly those tasks whose fetch and matcher both
succeeded; a task that fails at fetch or during stream reading emits no
record and contributes zero. -/
theorem C4_theorem (word : List Nat) (fetch : String → FetchOutcome) (tasks : List String) :
    analyst (workerRecords word fetch tasks)
      = (tasks.map fun url =>
          match fetch url with
          | FetchOutcome.fetchFailed => 0
          | FetchOutcome.fetched chunks fin =>
            if (streamEntranceCount word chunks fin).hasErr then 0
            else (streamEntranceCount word chunks fin).amount).sum := by
  rw [analyst_eq_sum, workerRecords_sum word fetch tasks]
  simp only [workerTaskRecord_getD]

/-! ## Claim C5: `NewController` rejects exactly the zero cap -/

/-- Claim C5: `NewController` returns an error exactly when the
configured cap is zero; in that case `main` dies via `log.Fatal` and the
pool never starts, while every cap of at least 1 yields the fully
configured controller and a nil error. -/
theorem C5_theorem (k : Nat) (q : String) :
    ((∃ e, newController k q = Except.error e) ↔ k = 0)
    ∧ (k = 0 → goMain k q = MainOutcome.fatal "NewController: MaxNumberOfWorker < 0")
    ∧ (1 ≤ k → goMain k q = MainOutcome.ranPool
        { getDownToWorkCap := k + 1, availableNumberOfWorker := k - 1,
          statisticsCap := k + 1, httpClient := { timeoutNanos := 10 * 1000000000 },
          neededWord := q }) := by
  unfold goMain newController
  by_cases hk : k < 1
  · rw [if_pos hk]
    refine ⟨⟨fun _ => by omega, fun _ => ⟨_, rfl⟩⟩, fun _ => rfl, fun h1 => by omega⟩
  · rw [if_neg hk]
    refine ⟨⟨?_, fun h0 => by omega⟩, fun h0 => by omega, fun _ => rfl⟩
    rintro ⟨e, he⟩
    exact Except.noConfusion he

/-- Claim C5 witness: cap 0 is rejected, cap 1 starts the pool. -/
theorem C5_theorem_witness :
    (∃ e, newController 0 "go" = Except.error e)
    ∧ goMain 1 "go" = MainOutcome.ranPool
        { getDownToWorkCap := 1 + 1, availableNumberOfWorker := 1 - 1,
          statisticsCap := 1 + 1, httpClient := { timeoutNanos := 10 * 1000000000 },
          neededWord := "go" } :=
  ⟨(C5_theorem 0 "go").1.mpr rfl, (C5_theorem 1 "go").2.2 (by decide)⟩

/-! ## Claim C6: empty and very short streams -/

/-- Claim C6 fails as stated for words that begin with a zero byte: for
the word `[0, 0, 97]` the stream `[97]` is shorter than
`wordLength - 1 = 2`, yet the matcher reports 1 instead of the correct
count 0, because the zero-initialised overlap buffer prepends two zero
bytes to the first window.  (No error is reported, as claimed.) -/
theorem C6_counterexample :
    ([97] : List Nat).length < ([0, 0, 97] : List Nat).length - 1
    ∧ ([0, 0, 97] : List Nat) ≠ []
    ∧ ([[97]] : List (List Nat)).flatten = [97]
    ∧ (streamEntranceCount [0, 0, 97] [[97]] (FinalRead.eof [])).amount = 1
    ∧ entranceCount [0, 0, 97] [97] = 0
    ∧ occCount [0, 0, 97] [97] + occCount (stringsTitle [0, 0, 97]) [97] = 0 := by
  decide

/-- Claim C6 (amended): for every non-empty word the empty stream yields
count 0 and no error; and every stream shorter than `wordLength - 1`
bytes yields the correct count (which is 0, the one-pass count) and no
error, provided the word does not start with a zero byte. -/
theorem C6_theorem (word content : List Nat) (chunks : List (List Nat))
    (hw : word ≠ []) (hjoin : chunks.flatten = content)
    (hshort : content.length < word.length - 1) (h0 : word.head? ≠ some 0) :
    streamEntranceCount word [] (FinalRead.eof []) = { amount := 0, hasErr := false }
    ∧ streamEntranceCount word chunks (FinalRead.eof [])
        = { amount := entranceCount word content, hasErr := false } := by
  have hw1 : 0 < word.length := List.length_pos.mpr hw
  constructor
  · rfl
  · have hq := stringsTitle_ne_nil word hw
    have hlen := stringsTitle_length word
    have h0t := stringsTitle_head_ne_zero word h0
    have hec : entranceCount word content = 0 :=
      entranceCount_eq_zero_of_short word content hw (by omega)
    rw [hec]
    unfold streamEntranceCount
    have hinit : List.replicate (word.length - 1) 0
        = List.replicate (word.length - 1) 0 ++ [] := by simp
    rw [hinit]
    exact streamLoop_short word (stringsTitle word) hw hq h0 h0t hlen chunks
      (word.length - 1) [] (by simp) (by simp only [List.length_nil, hjoin]; omega)

/-- Claim C6 witness: the word "aaaa" over the 2-byte stream "aa". -/
theorem C6_theorem_witness :
    streamEntranceCount [97, 97, 97, 97] [] (FinalRead.eof [])
      = { amount := 0, hasErr := false }
    ∧ streamEntranceCount [97, 97, 97, 97] [[97], [97]] (FinalRead.eof [])
        = { amount := entranceCount [97, 97, 97, 97] [97, 97], hasErr := false } :=
  C6_theorem [97, 97, 97, 97] [97, 97] [[97], [97]]
    (by decide) (by decide) (by decide) (by decide)

/-! ## Claim C7: the 10-second fetch timeout -/

/-- Claim C7 fails as stated: the legacy variant's `NewController` uses
`*http.DefaultClient`, whose `Timeout` zero value bounds nothing, so not
every controller variant in the repository fetches under a 10-second
timeout. -/
theorem C7_counterexample :
    ∃ c, newControllerLegacy 5 "go" = Except.ok c
      ∧ c.httpClient.timeoutNanos = 0
      ∧ c.httpClient.timeoutNanos ≠ 10 * 1000000000 := by
  refine ⟨_, rfl, rfl, by decide⟩

/-- Claim C7 (amended): for every accepted cap, the streaming-variant
`NewController` equips the pool with an HTTP client whose timeout is
exactly 10 seconds, while the legacy variant's client has no timeout at
all (the zero value of `http.DefaultClient`). -/
theorem C7_theorem (k : Nat) (q : String) (hk : 1 ≤ k) :
    (∃ c, newController k q = Except.ok c
      ∧ c.httpClient.timeoutNanos = 10 * 1000000000)
    ∧ (∃ c, newControllerLegacy k q = Except.ok c
      ∧ c.httpClient.timeoutNanos = 0) := by
  unfold newController newControllerLegacy
  rw [if_neg (by omega), if_neg (by omega)]
  exact ⟨⟨_, rfl, rfl⟩, ⟨_, rfl, rfl⟩⟩

/-- Claim C7 witness at cap 1. -/
theorem C7_theorem_witness :
    (∃ c, newController 1 "go" = Except.ok c
      ∧ c.httpClient.timeoutNanos = 10 * 1000000000)
    ∧ (∃ c, newControllerLegacy 1 "go" = Except.ok c
      ∧ c.httpClient.timeoutNanos = 0) :=
  C7_theorem 1 "go" (by decide)

/-! ## Claim C8: the exact shape of the output lines -/

/-- Claim C8 fails as stated: `fmt.Println` separates every two operands
with a space, so the per-task line is `Count for  u :  3` (identifier
surrounded by doubled spacing, a space before the colon), not
`Count for u: 3`, and the summary line is `Total:  7`, not `Total: 7`. -/
theorem C8_counterexample :
    workerCountLine "u" 3 ≠ "Count for u: 3" ++ "\n"
    ∧ analystTotalLine 7 ≠ "Total: 7" ++ "\n"
    ∧ workerCountLine "u" 3 = "Count for  u :  3" ++ "\n"
    ∧ analystTotalLine 7 = "Total:  7" ++ "\n" := by
  decide

/-- Claim C8 (amended): the per-task success line is exactly
`"Count for "`, a separating space, the identifier, a space, `": "`, a
space, then the count — i.e. `Count for  <id> :  <count>` — and the
Analyst writes exactly one summary line `Total:  <sum>` at shutdown. -/
theorem C8_theorem (url : String) (amount : Nat) (records : List Nat) :
    workerCountLine url amount
      = "Count for " ++ " " ++ url ++ " " ++ ": " ++ " " ++ toString amount ++ "\n"
    ∧ analystTotalLine amount = "Total: " ++ " " ++ toString amount ++ "\n"
    ∧ analystOutput records = "Total: " ++ " " ++ toString (analyst records) ++ "\n" := by
  refine ⟨?_, ?_, ?_⟩
  · rw [show workerCountLine url amount
        = goPrintln ["Count for ", url, ": ", toString amount] from rfl, goPrintln_four]
  · rw [show analystTotalLine amount = goPrintln ["Total: ", toString amount] from rfl,
      goPrintln_two]
  · rw [show analystOutput records
        = goPrintln ["Total: ", toString (analyst records)] from rfl, goPrintln_two]

/-! ## Claim C9: words equal to their own title variant count double -/

/-- When the two patterns of the streaming loop coincide, every window
is counted twice, so the accumulated amount is twice the single-pattern
sum — for every carry, chunk decomposition and terminating read. -/
theorem streamLoop_same_pattern (p : List Nat) :
    ∀ chunks carry fin,
      (streamLoop p p carry chunks fin).amount
        = 2 * streamSingleCount p carry chunks fin := by
  intro chunks
  induction chunks with
  | nil =>
    intro carry fin
    simp only [streamLoop, streamSingleCount]
    by_cases h : 0 < (FinalRead.data fin).length
    · rw [if_pos h, if_pos h]
      unfold countWindow
      omega
    · rw [if_neg h, if_neg h]
  | cons c cs ih =>
    intro carry fin
    simp only [streamLoop, streamSingleCount]
    rw [ih ((carry ++ c).drop c.length) fin]
    by_cases h : 0 < c.length
    · rw [if_pos h, if_pos h]
      unfold countWindow
      omega
    · rw [if_neg h, if_neg h]
      omega

/-- Claim C9 fails as stated: for the title-fixed, self-overlapping
word "AA" over the content "AAA", both matchers return 2 — twice the
non-overlapping `strings.Count` value — while twice the number of
occurrences would be 4, because "AA" occurs at the two overlapping
positions of "AAA".  The doubling is real, but it doubles the
non-overlapping instance count, not the occurrence count. -/
theorem C9_counterexample :
    stringsTitle [65, 65] = [65, 65]
    ∧ occCount [65, 65] [65, 65, 65] = 2
    ∧ entranceCount [65, 65] [65, 65, 65] = 2
    ∧ entranceCount [65, 65] [65, 65, 65] ≠ 2 * occCount [65, 65] [65, 65, 65]
    ∧ (streamEntranceCount [65, 65] [[65, 65, 65]] (FinalRead.eof [])).amount = 2
    ∧ (streamEntranceCount [65, 65] [[65, 65, 65]] (FinalRead.eof [])).amount
        ≠ 2 * occCount [65, 65] [65, 65, 65] := by
  decide

/-- Claim C9 (amended): for every word whose title-case variant is
identical to the word itself, both matchers add the count of the same
pattern twice: `EntranceCount` returns exactly twice the
(non-overlapping) `strings.Count` of the word in the content, and
`StreamEntranceCount` returns exactly twice the single-pattern
per-window count — with no further assumptions on the word, the
content, the chunking or the terminating read. -/
theorem C9_theorem (word content : List Nat) (chunks : List (List Nat)) (fin : FinalRead)
    (ht : stringsTitle word = word) (hjoin : chunks.flatten = content) :
    entranceCount word content = 2 * bytesCount word content
    ∧ (streamEntranceCount word chunks fin).amount
        = 2 * streamSingleCount word (List.replicate (word.length - 1) 0) chunks fin := by
  constructor
  · unfold entranceCount
    rw [ht]
    omega
  · unfold streamEntranceCount
    rw [ht]
    exact streamLoop_same_pattern word chunks _ fin

/-- Claim C9 witness: the word "Go" over the content "Go!" — the
matchers report 2 for the single non-overlapping instance. -/
theorem C9_theorem_witness :
    entranceCount [71, 111] [71, 111, 33] = 2 * bytesCount [71, 111] [71, 111, 33]
    ∧ (streamEntranceCount [71, 111] [[71, 111, 33]] (FinalRead.eof [])).amount
        = 2 * streamSingleCount [71, 111] [0] [[71, 111, 33]] (FinalRead.eof []) :=
  C9_theorem [71, 111] [71, 111, 33] [[71, 111, 33]] (FinalRead.eof [])
    (by decide) (by decide)

/-! ## Claim C10: read failures keep the partial count but emit nothing -/

/-- Claim C10: when a read fails with a non-EOF error, the streaming
matcher returns the partial count accumulated so far (the same amount
the successful run over the same bytes would return) together with a
non-nil error, and the Worker emits no statistics record for that
task. -/
theorem C10_theorem (word d : List Nat) (chunks : List (List Nat)) (url : String)
    (fetch : String → FetchOutcome)
    (hf : fetch url = FetchOutcome.fetched chunks (FinalRead.readErr d)) :
    (streamEntranceCount word chunks (FinalRead.readErr d)).hasErr = true
    ∧ (streamEntranceCount word chunks (FinalRead.readErr d)).amount
        = (streamEntranceCount word chunks (FinalRead.eof d)).amount
    ∧ workerRecords word fetch [url] = [] := by
  have he : (streamEntranceCount word chunks (FinalRead.readErr d)).hasErr = true :=
    streamLoop_hasErr word (stringsTitle word) chunks _ (FinalRead.readErr d)
  refine ⟨he, ?_, ?_⟩
  · exact streamLoop_amount_fin word (stringsTitle word) chunks _ d
  · have hnone : workerTaskRecord word fetch url = none := by
      unfold workerTaskRecord
      rw [hf]
      simp [he]
    simp [workerRecords, List.filterMap_cons, hnone]

/-- Claim C10 witness: a one-chunk body whose next read fails. -/
theorem C10_theorem_witness :
    (streamEntranceCount [97] [[97]] (FinalRead.readErr [98])).hasErr = true
    ∧ (streamEntranceCount [97] [[97]] (FinalRead.readErr [98])).amount
        = (streamEntranceCount [97] [[97]] (FinalRead.eof [98])).amount
    ∧ workerRecords [97]
        (fun _ => FetchOutcome.fetched [[97]] (FinalRead.readErr [98])) ["u"] = [] :=
  C10_theorem [97] [98] [[97]] "u"
    (fun _ => FetchOutcome.fetched [[97]] (FinalRead.readErr [98])) rfl
